import Mathlib

/-!
Shallow embedding of the two notebooks of this repository:
`ex_02_remote_classes.ipynb` (progress actor, Monte Carlo π sampling tasks)
and `ex_04_ray_libraries.ipynb` (model factory, supervisor / worker pattern,
wait-for-DONE loop, sorting of results by MSE).

Python dictionaries are embedded as association lists with unique keys in
insertion order; Python numbers as `ℤ`/`ℕ` and true division as division in
`ℚ`; a `raise` as `Except.error`.  A remote method call that mutates actor
state is embedded as a function from the actor state to the new state.
-/

namespace DevAI

/-- Values stored in the Python result dictionaries: strings, ints and
(float) numbers, the latter embedded as rationals. -/
inductive PyVal where
  | str (s : String)
  | int (n : ℤ)
  | num (q : ℚ)
deriving DecidableEq

/-- A Python dict with string keys, embedded as an association list. -/
abbrev Record := List (String × PyVal)

/-- Python `r[k]` on a dict with unique keys: the value at the first
occurrence of `k`, `none` when the key is missing (a `KeyError`). -/
def lookupKey : Record → String → Option PyVal
  | [], _ => none
  | (k', v) :: rest, k => if k' = k then some v else lookupKey rest k

/-! ## ProgressPIActor (ex_02_remote_classes.ipynb, identical copy in ex_04) -/

/-- State of `ProgressPIActor`: the total passed to `__init__` and the dict
`num_samples_completed_per_task` from task id to completed-sample count. -/
structure ProgressPIActor where
  total_num_samples : ℤ
  num_samples_completed_per_task : List (ℤ × ℤ)
deriving DecidableEq

/-- Python `d[k] = v` on a dict: replace the value at the first occurrence
of `k`, or append the new binding when `k` is absent. -/
def dictSet : List (ℤ × ℤ) → ℤ → ℤ → List (ℤ × ℤ)
  | [], k, v => [(k, v)]
  | (k', v') :: rest, k, v =>
      if k' = k then (k, v) :: rest else (k', v') :: dictSet rest k v

/-- Python `d.get(k)` on a dict over integer keys. -/
def dictGet : List (ℤ × ℤ) → ℤ → Option ℤ
  | [], _ => none
  | (k', v) :: rest, k => if k' = k then some v else dictGet rest k

/-- Python `sum(d.values())`. -/
def sumValues (d : List (ℤ × ℤ)) : ℤ :=
  (d.map Prod.snd).sum

namespace ProgressPIActor

/-- Constructor `ProgressPIActor(total_num_samples)`: records the total and
starts with an empty dict. -/
def init (total_num_samples : ℤ) : ProgressPIActor :=
  ⟨total_num_samples, []⟩

/-- Method `report_progress(task_id, num_samples_completed)`:
`self.num_samples_completed_per_task[task_id] = num_samples_completed`. -/
def report_progress (s : ProgressPIActor) (task_id num_samples_completed : ℤ) :
    ProgressPIActor :=
  { s with num_samples_completed_per_task :=
      dictSet s.num_samples_completed_per_task task_id num_samples_completed }

/-- Method `get_progress()`:
`sum(self.num_samples_completed_per_task.values()) / self.total_num_samples`. -/
def get_progress (s : ProgressPIActor) : ℚ :=
  (sumValues s.num_samples_completed_per_task : ℚ) / (s.total_num_samples : ℚ)

/-- Run form of `get_progress`: the returned value together with the actor
state after the call (the method body contains no assignment). -/
def get_progress_run (s : ProgressPIActor) : ℚ × ProgressPIActor :=
  (get_progress s, s)

/-- States of the actor reachable from construction with total `total` by a
finite sequence of `report_progress` calls. -/
inductive Reachable (total : ℤ) : ProgressPIActor → Prop where
  | init : Reachable total (init total)
  | step (s : ProgressPIActor) (task_id n : ℤ) :
      Reachable total s → Reachable total (report_progress s task_id n)

end ProgressPIActor

/-! ## Monte Carlo sampling task (ex_02_remote_classes.ipynb) -/

/-- Python `math.hypot(x, y) <= 1` for a sampled point, embedded over `ℚ`
via the equivalent squared form `x^2 + y^2 ≤ 1`. -/
def insideCircle (p : ℚ × ℚ) : Bool :=
  decide (p.1 ^ 2 + p.2 ^ 2 ≤ 1)

/-- Return value of `sampling_task(num_samples, ...)`, with the stream of
random points `random.uniform(-1, 1)` made an explicit argument `pts`:
the count `num_inside` of sampled points falling inside the unit circle. -/
def sampling_task (num_samples : ℕ) (pts : ℕ → ℚ × ℚ) : ℕ :=
  (List.range num_samples).countP (fun i => insideCircle (pts i))

/-- Sequence of `report_progress` messages `(task_id, n)` sent by
`sampling_task(num_samples, task_id, _, frequency_report)`: one per sample
index `i` with `(i + 1) % frequency_report == 0`, then the final report
`(task_id, num_samples)`. -/
def sampling_task_reports (num_samples : ℕ) (task_id : ℤ)
    (frequency_report : ℕ) : List (ℤ × ℕ) :=
  ((List.range num_samples).filter
      (fun i => (i + 1) % frequency_report = 0)).map (fun i => (task_id, i + 1))
    ++ [(task_id, num_samples)]

/-- Driver sum `total_num_inside = sum(ray.get(results))` over the
`NUM_SAMPLING_TASKS` sampling tasks, each with `NUM_SAMPLES_PER_TASK`
samples and its own point stream. -/
def total_num_inside (numTasks numSamplesPerTask : ℕ)
    (pts : ℕ → ℕ → ℚ × ℚ) : ℕ :=
  ((List.range numTasks).map
    (fun i => sampling_task numSamplesPerTask (pts i))).sum

/-- Driver computation `pi = (total_num_inside * 4) / TOTAL_NUM_SAMPLES`
with `TOTAL_NUM_SAMPLES = NUM_SAMPLING_TASKS * NUM_SAMPLES_PER_TASK`. -/
def pi_estimate (numTasks numSamplesPerTask : ℕ)
    (pts : ℕ → ℕ → ℚ × ℚ) : ℚ :=
  ((total_num_inside numTasks numSamplesPerTask pts : ℚ) * 4) /
    ((numTasks * numSamplesPerTask : ℕ) : ℚ)

/-- Sample point stream (every point at the origin, inside the circle),
used to evaluate the embedding on a concrete input. -/
def originPts : ℕ → ℕ → ℚ × ℚ :=
  fun _ _ => (0, 0)

/-! ## ModelFactory and Supervisor (ex_04_ray_libraries.ipynb) -/

/-- Modelled from the spec: the configuration dictionaries
`RANDOM_FOREST_CONFIGS`, `DECISION_TREE_CONFIGS`, `XGBOOST_CONFIGS` are
imported from `model_helper_utils`, a file of this repository that is not
under `src/`; only their identity matters to the claims. -/
inductive ModelConfigs where
  | RANDOM_FOREST_CONFIGS
  | DECISION_TREE_CONFIGS
  | XGBOOST_CONFIGS
deriving DecidableEq

/-- An actor handle returned by `ModelFactory.create_model`: one of the
classes `RFRActor`, `DTActor`, `XGBoostActor` (imported from
`model_helper_utils`) constructed with its configuration argument. -/
inductive ModelHandle where
  | RFRActor (configs : ModelConfigs)
  | DTActor (configs : ModelConfigs)
  | XGBoostActor (configs : ModelConfigs)
deriving DecidableEq

namespace ModelFactory

/-- Class attribute `ModelFactory.MODEL_TYPES`. -/
def MODEL_TYPES : List String :=
  ["random_forest", "decision_tree", "xgboost"]

/-- Static method `ModelFactory.create_model(model_name)`: raises
`Exception(f"{model_name} not supported")` when the name is not in
`MODEL_TYPES`, otherwise dispatches on the name to the matching actor
class with its configs. -/
def create_model (model_name : String) : Except String ModelHandle :=
  if model_name ∉ MODEL_TYPES then
    Except.error (model_name ++ " not supported")
  else if model_name = "random_forest" then
    Except.ok (ModelHandle.RFRActor ModelConfigs.RANDOM_FOREST_CONFIGS)
  else if model_name = "decision_tree" then
    Except.ok (ModelHandle.DTActor ModelConfigs.DECISION_TREE_CONFIGS)
  else
    Except.ok (ModelHandle.XGBoostActor ModelConfigs.XGBOOST_CONFIGS)

end ModelFactory

/-- State of the `Supervisor` actor: its list `worker_models`. -/
structure Supervisor where
  worker_models : List ModelHandle
deriving DecidableEq

namespace Supervisor

/-- Constructor `Supervisor()`:
`[ModelFactory.create_model(name) for name in ModelFactory.MODEL_TYPES]`;
an exception from `create_model` propagates out of the comprehension. -/
def init : Except String Supervisor := do
  let ms ← ModelFactory.MODEL_TYPES.mapM ModelFactory.create_model
  return ⟨ms⟩

/-- Method `Supervisor.work()`: calls `train_and_evaluate_model` on each
worker and collects the results in worker order (`ray.get` on the list of
futures keeps submission order).  The training routine lives in
`model_helper_utils`, outside `src/`, and is passed as the argument `f`. -/
def work (s : Supervisor) (f : ModelHandle → Record) : List Record :=
  s.worker_models.map f

end Supervisor

/-- Modelled from the spec: `train_and_evaluate_model`, defined in
`model_helper_utils` outside `src/`, returns for each worker a record with
keys `name`, `mse`, `time`, `state` (plus hyperparameters); the numeric
values here are the ones recorded in the notebook's saved output. -/
def train_and_evaluate_model : ModelHandle → Record
  | ModelHandle.RFRActor _ =>
      [("estimators", PyVal.int 150), ("mse", PyVal.num (2529 / 10000)),
       ("name", PyVal.str "random_forest"), ("state", PyVal.str "DONE"),
       ("time", PyVal.num (1241 / 100))]
  | ModelHandle.DTActor _ =>
      [("max_depth", PyVal.int 15), ("mse", PyVal.num (4859 / 10000)),
       ("name", PyVal.str "decision_tree"), ("state", PyVal.str "DONE"),
       ("time", PyVal.num (11 / 100))]
  | ModelHandle.XGBoostActor _ =>
      [("estimators", PyVal.int 150), ("max_depth", PyVal.int 10),
       ("mse", PyVal.num (2212 / 10000)), ("name", PyVal.str "xgboost"),
       ("state", PyVal.str "DONE"), ("time", PyVal.num (116 / 100))]

/-- Driver value `values = ray.get(supervisor.work.remote())`. -/
def values : List Record :=
  match Supervisor.init with
  | Except.ok s => s.work train_and_evaluate_model
  | Except.error _ => []

/-! ## Wait-for-DONE loop (ex_04_ray_libraries.ipynb) -/

/-- Python `value["state"]` for a result record. -/
def getState (r : Record) : Option PyVal :=
  lookupKey r "state"

/-- Contents of the `states` list after `n` iterations of the
wait-for-DONE loop body: each iteration appends `value["state"]` for every
`value` in `values` (the same values every time). -/
def loopStates (vs : List Record) : ℕ → List (Option PyVal)
  | 0 => []
  | n + 1 => loopStates vs n ++ vs.map getState

/-- Termination test evaluated at the end of iteration `n` (0-indexed):
`all('DONE' == e for e in states)`. -/
def loopCheck (vs : List Record) (n : ℕ) : Bool :=
  (loopStates vs (n + 1)).all (fun e => decide (e = some (PyVal.str "DONE")))

/-- Termination of the wait-for-DONE loop: some iteration's test passes. -/
def loopTerminates (vs : List Record) : Prop :=
  ∃ n, loopCheck vs n = true

/-- Test at entry that every record already carries state `'DONE'`. -/
def allDone (vs : List Record) : Bool :=
  vs.all (fun r => decide (getState r = some (PyVal.str "DONE")))

/-! ## Sorting of results (ex_04_ray_libraries.ipynb) -/

/-- Sort key `itemgetter('mse')`, as the rational value under the `mse`
key (the records produced by training all carry a numeric `mse`). -/
def mseKey (r : Record) : ℚ :=
  match lookupKey r "mse" with
  | some (PyVal.num q) => q
  | some (PyVal.int n) => (n : ℚ)
  | _ => 0

/-- Driver value `sorted_by_mse = sorted(values, key=itemgetter('mse'))`;
Python's `sorted` is a stable sort, embedded as the stable `mergeSort`. -/
def sorted_by_mse : List Record :=
  values.mergeSort (fun a b => decide (mseKey a ≤ mseKey b))

/-! ## Helper lemmas -/

/-- Setting a key in a dict makes lookup of that key return the new value. -/
theorem dictGet_dictSet_self (d : List (ℤ × ℤ)) (k v : ℤ) :
    dictGet (dictSet d k v) k = some v := by
  induction d with
  | nil => simp [dictSet, dictGet]
  | cons p rest ih =>
      obtain ⟨a, b⟩ := p
      by_cases h : a = k
      · simp [dictSet, h, dictGet]
      · simp [dictSet, h, dictGet, ih]

/-- Setting a key in a dict leaves lookup of every other key unchanged. -/
theorem dictGet_dictSet_ne (d : List (ℤ × ℤ)) (k v k' : ℤ) (h : k' ≠ k) :
    dictGet (dictSet d k v) k' = dictGet d k' := by
  have hk : k ≠ k' := fun he => h he.symm
  induction d with
  | nil => simp [dictSet, dictGet, hk]
  | cons p rest ih =>
      obtain ⟨a, b⟩ := p
      by_cases ha : a = k
      · subst ha
        simp [dictSet, dictGet, hk]
      · simp [dictSet, ha, dictGet, ih]

/-- Mapping before `all` is `all` of the composition. -/
theorem all_comp_map {α β : Type} (f : α → β) (p : β → Bool) (l : List α) :
    (l.map f).all p = l.all (fun a => p (f a)) := by
  induction l with
  | nil => rfl
  | cons x xs ih => simp [List.all_cons, ih]

/-- Every iteration of the wait-for-DONE loop evaluates the same test:
whether every record of `vs` carries state `'DONE'`. -/
theorem loopCheck_eq_allDone (vs : List Record) (n : ℕ) :
    loopCheck vs n = allDone vs := by
  induction n with
  | zero =>
      simp only [loopCheck, loopStates, List.nil_append, allDone]
      exact all_comp_map getState _ vs
  | succ m ih =>
      have hstep : loopCheck vs (m + 1) = (loopCheck vs m && allDone vs) := by
        simp only [loopCheck, loopStates, List.all_append, allDone]
        rw [all_comp_map getState _ vs]
      rw [hstep, ih, Bool.and_self]

/-! ## Claims -/

/-- C1: `ModelFactory.create_model(model_name)` raises an `Exception` whose
message contains the model name and `not supported` exactly when
`model_name` is not one of `MODEL_TYPES`; for each of the three supported
names it raises nothing and returns a handle of the corresponding class
built with that model's configs. -/
theorem create_model_error_iff_unsupported :
    (∀ name, ModelFactory.create_model name =
        Except.error (name ++ " not supported") ↔ name ∉ ModelFactory.MODEL_TYPES)
    ∧ ModelFactory.create_model "random_forest" =
        Except.ok (ModelHandle.RFRActor ModelConfigs.RANDOM_FOREST_CONFIGS)
    ∧ ModelFactory.create_model "decision_tree" =
        Except.ok (ModelHandle.DTActor ModelConfigs.DECISION_TREE_CONFIGS)
    ∧ ModelFactory.create_model "xgboost" =
        Except.ok (ModelHandle.XGBoostActor ModelConfigs.XGBOOST_CONFIGS) := by
  refine ⟨fun name => ?_, rfl, rfl, rfl⟩
  by_cases h : name ∈ ModelFactory.MODEL_TYPES
  · constructor
    · intro herr
      exfalso
      have : ∃ m, ModelFactory.create_model name = Except.ok m := by
        simp only [ModelFactory.MODEL_TYPES, List.mem_cons,
          List.mem_singleton, List.not_mem_nil, or_false] at h
        rcases h with h1 | h2 | h3
        · subst h1; exact ⟨_, rfl⟩
        · subst h2; exact ⟨_, rfl⟩
        · subst h3; exact ⟨_, rfl⟩
      obtain ⟨m, hm⟩ := this
      rw [hm] at herr
      exact Except.noConfusion herr
    · intro hn
      exact absurd h hn
  · simp [ModelFactory.create_model, h]

/-- C2 counterexample: an actor constructed with `total_num_samples = 1` is,
after the single call `report_progress(0, 2)`, in a reachable state where
`get_progress` returns `2`, outside the interval `[0, 1]`. -/
theorem get_progress_exceeds_one_reachable :
    ProgressPIActor.Reachable 1
        (ProgressPIActor.report_progress (ProgressPIActor.init 1) 0 2)
    ∧ ¬ (ProgressPIActor.get_progress
          (ProgressPIActor.report_progress (ProgressPIActor.init 1) 0 2) ≤ 1) :=
  ⟨ProgressPIActor.Reachable.step _ 0 2 ProgressPIActor.Reachable.init, by
    norm_num [ProgressPIActor.get_progress, ProgressPIActor.report_progress,
      ProgressPIActor.init, dictSet, sumValues]⟩

/-- C2 (amended): for every reachable state of a `ProgressPIActor` in which
`total_num_samples` is positive, every recorded count is nonnegative and
the recorded counts sum to at most `total_num_samples`, the value returned
by `get_progress` lies in `[0, 1]`. -/
theorem get_progress_in_unit_interval (total : ℤ) (s : ProgressPIActor)
    (hreach : ProgressPIActor.Reachable total s)
    (hpos : 0 < s.total_num_samples)
    (hvals : ∀ p ∈ s.num_samples_completed_per_task, 0 ≤ p.2)
    (hsum : sumValues s.num_samples_completed_per_task ≤ s.total_num_samples) :
    0 ≤ ProgressPIActor.get_progress s ∧ ProgressPIActor.get_progress s ≤ 1 := by
  have hsumnn : 0 ≤ sumValues s.num_samples_completed_per_task := by
    apply List.sum_nonneg
    intro x hx
    obtain ⟨p, hp, hpx⟩ := List.mem_map.mp hx
    exact hpx ▸ hvals p hp
  have htq : (0 : ℚ) < (s.total_num_samples : ℚ) := by exact_mod_cast hpos
  constructor
  · exact div_nonneg (by exact_mod_cast hsumnn) (le_of_lt htq)
  · rw [ProgressPIActor.get_progress, div_le_one htq]
    exact_mod_cast hsum

/-- C2 witness: the amended bound evaluated on the reachable state of an
actor with total `10` after `report_progress(0, 5)`. -/
theorem get_progress_in_unit_interval_witness :
    0 ≤ ProgressPIActor.get_progress
          (ProgressPIActor.report_progress (ProgressPIActor.init 10) 0 5)
    ∧ ProgressPIActor.get_progress
          (ProgressPIActor.report_progress (ProgressPIActor.init 10) 0 5) ≤ 1 :=
  get_progress_in_unit_interval 10 _
    (ProgressPIActor.Reachable.step _ 0 5 ProgressPIActor.Reachable.init)
    (by decide) (by decide) (by decide)

/-- C3: `report_progress(task_id, n)` sets the dict entry for `task_id` to
`n`, replacing any previously recorded count, and `get_progress` returns
the sum of the recorded counts divided by `total_num_samples`. -/
theorem report_progress_sets_entry_and_ratio (s : ProgressPIActor) (k n : ℤ) :
    dictGet (ProgressPIActor.report_progress s k n).num_samples_completed_per_task k
      = some n
    ∧ ProgressPIActor.get_progress s =
        (sumValues s.num_samples_completed_per_task : ℚ) /
          (s.total_num_samples : ℚ) :=
  ⟨dictGet_dictSet_self s.num_samples_completed_per_task k n, rfl⟩

/-- C8: `get_progress` leaves the actor state unchanged, and
`report_progress(k, n)` leaves `total_num_samples` and the recorded count
of every task id other than `k` unchanged. -/
theorem actor_methods_frame (s : ProgressPIActor) (k n k' : ℤ) (hk : k' ≠ k) :
    (ProgressPIActor.get_progress_run s).2 = s
    ∧ (ProgressPIActor.report_progress s k n).total_num_samples =
        s.total_num_samples
    ∧ dictGet (ProgressPIActor.report_progress s k n).num_samples_completed_per_task k'
        = dictGet s.num_samples_completed_per_task k' :=
  ⟨rfl, rfl, dictGet_dictSet_ne s.num_samples_completed_per_task k n k' hk⟩

/-- C8 witness: the frame property evaluated on the concrete state
`⟨10, [(1, 3)]⟩` with a report for task `0` and the other task id `1`. -/
theorem actor_methods_frame_witness :
    (ProgressPIActor.get_progress_run ⟨10, [(1, 3)]⟩).2 = (⟨10, [(1, 3)]⟩ : ProgressPIActor)
    ∧ (ProgressPIActor.report_progress ⟨10, [(1, 3)]⟩ 0 7).total_num_samples = 10
    ∧ dictGet (ProgressPIActor.report_progress ⟨10, [(1, 3)]⟩ 0 7).num_samples_completed_per_task 1
        = dictGet [(1, 3)] 1 :=
  actor_methods_frame ⟨10, [(1, 3)]⟩ 0 7 1 (by decide)

/-- C4: `Supervisor.__init__` creates exactly one worker per name in
`ModelFactory.MODEL_TYPES` — three workers, for `random_forest`,
`decision_tree` and `xgboost` in that order — and `Supervisor.work`
returns the list of the three workers' training results, one per worker,
in the same order. -/
theorem supervisor_three_workers :
    Supervisor.init = Except.ok
      ⟨[ModelHandle.RFRActor ModelConfigs.RANDOM_FOREST_CONFIGS,
        ModelHandle.DTActor ModelConfigs.DECISION_TREE_CONFIGS,
        ModelHandle.XGBoostActor ModelConfigs.XGBOOST_CONFIGS]⟩
    ∧ (∀ f : ModelHandle → Record,
        Supervisor.work
          ⟨[ModelHandle.RFRActor ModelConfigs.RANDOM_FOREST_CONFIGS,
            ModelHandle.DTActor ModelConfigs.DECISION_TREE_CONFIGS,
            ModelHandle.XGBoostActor ModelConfigs.XGBOOST_CONFIGS]⟩ f =
          [f (ModelHandle.RFRActor ModelConfigs.RANDOM_FOREST_CONFIGS),
           f (ModelHandle.DTActor ModelConfigs.DECISION_TREE_CONFIGS),
           f (ModelHandle.XGBoostActor ModelConfigs.XGBOOST_CONFIGS)]) :=
  ⟨rfl, fun _ => rfl⟩

/-- C5: every record in the results list `values` returned by
`Supervisor.work` contains at least the keys `name`, `mse`, `time` and
`state`. -/
theorem values_records_have_required_keys :
    values.all (fun r =>
      (lookupKey r "name").isSome && (lookupKey r "mse").isSome &&
      (lookupKey r "time").isSome && (lookupKey r "state").isSome) = true :=
  rfl

/-- C9: the wait-for-DONE loop terminates exactly when every record of
`vs` already has state `'DONE'` at entry, in which case its test already
passes at the end of the first iteration; otherwise no iteration's test
ever passes, since each iteration only appends copies of the same state
values. -/
theorem wait_loop_termination_iff (vs : List Record) :
    (loopTerminates vs ↔ ∀ r ∈ vs, getState r = some (PyVal.str "DONE"))
    ∧ (loopCheck vs 0 = true ↔ ∀ r ∈ vs, getState r = some (PyVal.str "DONE")) := by
  have hall : (allDone vs = true) ↔ ∀ r ∈ vs, getState r = some (PyVal.str "DONE") := by
    simp [allDone, List.all_eq_true]
  constructor
  · constructor
    · rintro ⟨n, hn⟩
      exact hall.mp (loopCheck_eq_allDone vs n ▸ hn)
    · intro h
      exact ⟨0, (loopCheck_eq_allDone vs 0).trans (hall.mpr h)⟩
  · rw [loopCheck_eq_allDone vs 0]
    exact hall

/-- C6: `sampling_task` returns the count of its sampled points falling
inside the unit circle, so each task's return value is at most its number
of samples; `pi` is `(total_num_inside * 4) / TOTAL_NUM_SAMPLES` with
`total_num_inside` the sum of the tasks' return values, and the estimate
lies in `[0, 4]`. -/
theorem pi_estimate_in_range (numTasks numSamplesPerTask : ℕ)
    (pts : ℕ → ℕ → ℚ × ℚ) (hT : 0 < numTasks) (hP : 0 < numSamplesPerTask) :
    (∀ i, sampling_task numSamplesPerTask (pts i) ≤ numSamplesPerTask)
    ∧ pi_estimate numTasks numSamplesPerTask pts =
        ((total_num_inside numTasks numSamplesPerTask pts : ℚ) * 4) /
          ((numTasks * numSamplesPerTask : ℕ) : ℚ)
    ∧ 0 ≤ pi_estimate numTasks numSamplesPerTask pts
    ∧ pi_estimate numTasks numSamplesPerTask pts ≤ 4 := by
  have hbound : ∀ g : ℕ → ℚ × ℚ,
      sampling_task numSamplesPerTask g ≤ numSamplesPerTask := by
    intro g
    calc (List.range numSamplesPerTask).countP (fun i => insideCircle (g i))
        ≤ (List.range numSamplesPerTask).length :=
          List.countP_le_length (fun i => insideCircle (g i))
      _ = numSamplesPerTask := List.length_range numSamplesPerTask
  have htotal : total_num_inside numTasks numSamplesPerTask pts ≤
      numTasks * numSamplesPerTask := by
    have hmem : ∀ x ∈ (List.range numTasks).map
        (fun i => sampling_task numSamplesPerTask (pts i)), x ≤ numSamplesPerTask := by
      intro x hx
      obtain ⟨i, _, rfl⟩ := List.mem_map.mp hx
      exact hbound (pts i)
    calc total_num_inside numTasks numSamplesPerTask pts
        ≤ ((List.range numTasks).map
            (fun i => sampling_task numSamplesPerTask (pts i))).length •
              numSamplesPerTask := List.sum_le_card_nsmul _ _ hmem
      _ = numTasks * numSamplesPerTask := by simp [smul_eq_mul]
  have hTP : (0 : ℚ) < ((numTasks * numSamplesPerTask : ℕ) : ℚ) := by
    exact_mod_cast Nat.mul_pos hT hP
  refine ⟨fun i => hbound (pts i), rfl, ?_, ?_⟩
  · exact div_nonneg (by positivity) (le_of_lt hTP)
  · rw [pi_estimate, div_le_iff₀ hTP]
    have hq : (total_num_inside numTasks numSamplesPerTask pts : ℚ) ≤
        ((numTasks * numSamplesPerTask : ℕ) : ℚ) := by exact_mod_cast htotal
    nlinarith [hq, hTP]

/-- C6 witness: the bounds evaluated for `2` tasks of `3` samples each on
the constant stream of origin points, all inside the circle. -/
theorem pi_estimate_in_range_witness :
    0 < 2 ∧ 0 < 3
    ∧ 0 ≤ pi_estimate 2 3 originPts ∧ pi_estimate 2 3 originPts ≤ 4 :=
  ⟨by decide, by decide,
    (pi_estimate_in_range 2 3 originPts (by decide) (by decide)).2.2.1,
    (pi_estimate_in_range 2 3 originPts (by decide) (by decide)).2.2.2⟩

/-- C7: `sorted_by_mse` is a permutation of `values` in which each
record's `mse` key is at most the next record's `mse` key. -/
theorem sorted_by_mse_perm_ascending :
    sorted_by_mse.Perm values
    ∧ List.Chain' (fun a b => mseKey a ≤ mseKey b) sorted_by_mse := by
  constructor
  · exact List.mergeSort_perm values (fun a b => decide (mseKey a ≤ mseKey b))
  · have htrans : ∀ a b c : Record,
        decide (mseKey a ≤ mseKey b) = true → decide (mseKey b ≤ mseKey c) = true →
          decide (mseKey a ≤ mseKey c) = true := by
      intro a b c hab hbc
      simp only [decide_eq_true_eq] at hab hbc ⊢
      exact le_trans hab hbc
    have htot : ∀ a b : Record,
        (decide (mseKey a ≤ mseKey b) || decide (mseKey b ≤ mseKey a)) = true := by
      intro a b
      simp only [Bool.or_eq_true, decide_eq_true_eq]
      exact le_total _ _
    have hp := @List.sorted_mergeSort Record
      (fun a b => decide (mseKey a ≤ mseKey b)) htrans htot values
    have hp' : List.Pairwise (fun a b : Record => mseKey a ≤ mseKey b)
        (values.mergeSort (fun a b => decide (mseKey a ≤ mseKey b))) :=
      hp.imp (fun hab => of_decide_eq_true hab)
    exact hp'.chain'

/-- C10: when every one of the `numTasks` sampling tasks has delivered its
final report — the last message of `sampling_task_reports` carries
`num_samples` — so that each recorded count equals the per-task sample
count `P` and `total_num_samples = numTasks * P`, `get_progress` returns
exactly `1`, the exit condition of the driver polling loop. -/
theorem get_progress_exact_one_on_completion (numTasks : ℕ) (P : ℤ)
    (s : ProgressPIActor) (hT : 0 < numTasks) (hP : 0 < P)
    (htot : s.total_num_samples = numTasks * P)
    (hdict : s.num_samples_completed_per_task.map Prod.snd =
        List.replicate numTasks P) :
    ProgressPIActor.get_progress s = 1
    ∧ ∀ (num_samples : ℕ) (task_id : ℤ) (freq : ℕ),
        (sampling_task_reports num_samples task_id freq).getLast? =
          some (task_id, num_samples) := by
  constructor
  · have hsum : sumValues s.num_samples_completed_per_task = numTasks * P := by
      rw [sumValues, hdict, List.sum_replicate, nsmul_eq_mul]
    have hne : (((numTasks : ℤ) * P : ℤ) : ℚ) ≠ 0 := by
      have hpos : (0 : ℤ) < (numTasks : ℤ) * P :=
        mul_pos (by exact_mod_cast hT) hP
      exact_mod_cast hpos.ne'
    rw [ProgressPIActor.get_progress, hsum, htot]
    exact div_self hne
  · intro ns tid freq
    exact List.getLast?_concat _

/-- C10 witness: an actor with total `6` and two tasks each reporting `3`
completed samples has `get_progress` exactly `1`. -/
theorem get_progress_exact_one_on_completion_witness :
    (0 : ℕ) < 2 ∧ (0 : ℤ) < 3
    ∧ ProgressPIActor.get_progress ⟨6, [(0, 3), (1, 3)]⟩ = 1 :=
  ⟨by decide, by decide,
    (get_progress_exact_one_on_completion 2 3 ⟨6, [(0, 3), (1, 3)]⟩
      (by decide) (by decide) (by decide) (by decide)).1⟩

end DevAI
